import Mathlib

/-!
A shallow embedding of the worker-side table runtime of the spartan
repository, covering:

* the server-side iterator fill loop and registry of `Worker::get_iterator`
  (src/unnamed/part_000, lines 163-193),
* the `RemoteIterator` client protocol of `src/spartan/table-inl.h`,
* the RPC handlers `Worker::get`, `Worker::put`, `Worker::run_kernel`,
  `Worker::destroy_table`, `Worker::shutdown` (src/unnamed/part_000),
* the `Modulo` sharder of `src/spartan/table-inl.h`,
* the scalar and dense reduction kernels of src/unnamed/part_001.

Shard data is modelled as an insertion-ordered association list from key
bytes to value bytes, cursors over a shard as the list of not yet consumed
entries, and machine integers (`npy_int` values of the reducers, worker ids)
as mathematical integers; signed overflow is undefined behaviour in the C
source, and the bitwise reducers use the two's-complement `Int.land`,
`Int.lor` and `Int.xor`.  Paths of the C++ code that are undefined behaviour
(indexing a missing table, shard or iterator, a `CHECK` failure) are modelled
by `Option` / explicit fatal results.
-/

/-- Association-list lookup: the value stored at the first occurrence of the
key, mirroring map lookup on the C++ side (where keys are unique). -/
def alistLookup {K V : Type} [DecidableEq K] : List (K × V) → K → Option V
  | [], _ => none
  | p :: rest, k => if p.1 = k then some p.2 else alistLookup rest k

/-- Association-list update: overwrite the entry at the key if present,
otherwise append a fresh entry at the end (insertion order). -/
def alistSet {K V : Type} [DecidableEq K] : List (K × V) → K → V → List (K × V)
  | [], k, v => [(k, v)]
  | p :: rest, k, v => if p.1 = k then (k, v) :: rest else p :: alistSet rest k v

/-- Association-list erase: drop every entry with the given key, as
`std::map::erase` does for its (unique) entry. -/
def alistErase {K V : Type} [DecidableEq K] (l : List (K × V)) (k : K) : List (K × V) :=
  l.filter (fun p => decide (p.1 ≠ k))

/-- One key/value entry of a shard: opaque key bytes and value bytes. -/
abbrev ShardData (V : Type) := List (String × V)

/-- `Shard::apply_remote`.  Modelled from the spec: the merge that incoming
`put` RPCs perform on an owned shard (table.h is not under src/): store
`reducer(old, v)` when a value is already present at the key, else store `v`. -/
def apply_remote {V : Type} (reducer : V → V → V) (sh : ShardData V)
    (k : String) (v : V) : ShardData V :=
  match alistLookup sh k with
  | some old => alistSet sh k (reducer old v)
  | none => sh ++ [(k, v)]

/-- The fill loop of `Worker::get_iterator`: `for (i = 0; i < count; i++)
if (!it->done()) { push(key, value); next; }`.  Returns the pushed entries
and the remaining cursor of the server-side iterator. -/
def fillLoop {A : Type} : Nat → List A → List A × List A
  | 0, cur => ([], cur)
  | Nat.succ n, cur =>
    match cur with
    | [] => ([], [])
    | e :: rest =>
      let r := fillLoop n rest
      (e :: r.1, r.2)

/-- `IteratorReq{table, shard, id (-1 for new), count}`. -/
structure IteratorReq where
  table : Nat
  shard : Nat
  id : Int
  count : Nat

/-- `IteratorResp{id, results, row_count, done}`. -/
structure IteratorResp where
  id : Nat
  results : ShardData String
  row_count : Nat
  done : Bool

/-- A table as the worker holds it: shard owner map, shard data, and the
accumulator plug-ins materialized by `Worker::create_table`. -/
structure TableState where
  num_shards : Nat
  shardOwners : List Int
  shards : List (ShardData String)
  combiner : String → String → String
  reducer : String → String → String

/-- `Table::worker_for_shard`: the owner recorded in the shard info. -/
def TableState.worker_for_shard (t : TableState) (s : Nat) : Int :=
  t.shardOwners.getD s (-1)

/-- The worker-global state: id, tables map, server-side iterator registry,
iterator id counter, running flag and server handle (`server_ != NULL`). -/
structure WorkerState where
  id : Int
  tables : List (Nat × TableState)
  iterators : List (Nat × ShardData String)
  current_iterator_id : Nat
  running : Bool
  serverAlive : Bool

/-- `GetRequest{table, shard, key}`. -/
structure GetRequest where
  table : Nat
  shard : Nat
  key : String

/-- `TableData` as filled by the `Get` handler (`source`, `table`, `shard`,
`done`, `missing_key`, `kv_data`). -/
structure TableData where
  source : Int
  table : Nat
  shard : Int
  done : Bool
  missing_key : Bool
  kv_data : ShardData String

/-- `Worker::get`: sets `source = id_`, `table = req.table`, `shard = -1`,
`done = true`, then reports the key through `missing_key` / `kv_data`.
`Table::contains` / `Table::get` (table.h, not under src/) are modelled from
the spec as lookup in the owned shard's data.  A missing table or shard index
is undefined behaviour in the C++ source and yields `none`. -/
def Worker.get (w : WorkerState) (req : GetRequest) : Option TableData :=
  match alistLookup w.tables req.table with
  | none => none
  | some t =>
    match t.shards.get? req.shard with
    | none => none
    | some sh =>
      match alistLookup sh req.key with
      | none => some ⟨w.id, req.table, -1, true, true, []⟩
      | some v => some ⟨w.id, req.table, -1, true, false, [(req.key, v)]⟩

/-- The locked resolution step of `Worker::get_iterator`: a request with
`id = -1` allocates a fresh iterator over the shard (fresh id taken from
`current_iterator_id_++`), any other id is looked up in the registry
(`CHECK_NE(it, NULL)` on failure).  Returns the iterator id, its current
cursor, and whether it was newly allocated. -/
def resolveIter (w : WorkerState) (req : IteratorReq) :
    Option (Nat × ShardData String × Bool) :=
  match alistLookup w.tables req.table with
  | none => none
  | some t =>
    if req.id = -1 then
      match t.shards.get? req.shard with
      | none => none
      | some sh => some (w.current_iterator_id, sh, true)
    else
      match alistLookup w.iterators req.id.toNat with
      | none => none
      | some cur => some (req.id.toNat, cur, false)

/-- `Worker::get_iterator`: resolve the server-side iterator, fill up to
`count` entries into the response, record the advanced cursor back in the
registry, and set `done` from the cursor after the fill.  `row_count` is
written inside the loop (last pushed index). -/
def Worker.get_iterator (w : WorkerState) (req : IteratorReq) :
    Option (WorkerState × IteratorResp) :=
  match resolveIter w req with
  | none => none
  | some (iid, cur, isNew) =>
    let f := fillLoop req.count cur
    let w' : WorkerState :=
      { w with
        iterators := alistSet w.iterators iid f.2
        current_iterator_id :=
          if isNew then w.current_iterator_id + 1 else w.current_iterator_id }
    some (w', ⟨iid, f.1, f.1.length - 1, f.2.isEmpty⟩)

/-- The `Put` request payload used by `Worker::put`: `TableData{table, shard,
kv_data}`. -/
structure PutReq where
  table : Nat
  shard : Nat
  kv_data : ShardData String

/-- `Worker::put`: `CHECK` the table exists, then apply every entry of the
batch in order to the addressed shard before returning.  The merge performed
by `t->update` on the owned shard is modelled from the spec as
`apply_remote` with the table's `reducer` (table.h is not under src/). -/
def Worker.put (w : WorkerState) (req : PutReq) : Option WorkerState :=
  match alistLookup w.tables req.table with
  | none => none
  | some t =>
    match t.shards.get? req.shard with
    | none => none
    | some sh =>
      let sh' := req.kv_data.foldl (fun acc p => apply_remote t.reducer acc p.1 p.2) sh
      some { w with
        tables := alistSet w.tables req.table { t with shards := t.shards.set req.shard sh' } }

/-- `RunKernelReq{table, shard}` (kernel id and argument maps are consumed
only by the kernel registry, abstracted as the kernel function itself). -/
structure RunKernelReq where
  table : Nat
  shard : Nat

/-- `RunKernelResp{elapsed, error}`; `elapsed = none` models the field never
having been written. -/
structure RunKernelResp where
  error : String
  elapsed : Option Nat

/-- A user kernel.  Modelled from the spec: kernel code (Python, outside
src/) is a run-to-completion computation over its bound shard that may leave
the shard partially updated and raise a structured failure (`PyException`). -/
abbrev KernelFun := ShardData String → ShardData String × Option String

/-- `format_exc`.  Modelled from the spec: py-support (outside src/) formats
a structured kernel failure into a non-empty error string. -/
def format_exc (e : String) : String := "KernelFailure: " ++ e

/-- Outcome of `Worker::run_kernel`: either a fatal `Log_fatal` / failed
`CHECK` that terminates the worker with the state it had at that point, or a
normal return with the updated state and the response. -/
inductive RunKernelResult where
  | fatal (msg : String) (w : WorkerState)
  | ok (w : WorkerState) (resp : RunKernelResp)

/-- The message of the routing-violation `Log_fatal` in `Worker::run_kernel`. -/
def routingViolationMsg : String := "Received a shard I cannot work on!"

/-- `Worker::run_kernel`: `CHECK(id_ != -1)`; dereference the table and shard
(undefined behaviour if absent, modelled as a fatal crash); `Log_fatal` when
`worker_for_shard(shard) != id_`; otherwise run the kernel, catch a
`PyException` into `resp->error`, and always set `resp->elapsed`. -/
def Worker.run_kernel (w : WorkerState) (kern : KernelFun) (req : RunKernelReq)
    (elapsed : Nat) : RunKernelResult :=
  if w.id = -1 then .fatal "CHECK(id_ != -1) failed" w
  else
    match alistLookup w.tables req.table with
    | none => .fatal "unknown table" w
    | some t =>
      match t.shards.get? req.shard with
      | none => .fatal "unknown shard" w
      | some sh =>
        if t.worker_for_shard req.shard ≠ w.id then .fatal routingViolationMsg w
        else
          let r := kern sh
          let w' : WorkerState :=
            { w with
              tables := alistSet w.tables req.table { t with shards := t.shards.set req.shard r.1 } }
          .ok w' ⟨(match r.2 with
                   | some e => format_exc e
                   | none => ""), some elapsed⟩

/-- `Worker::destroy_table`: delete the table object and erase its entry from
the tables map.  No other member of the worker is touched. -/
def Worker.destroy_table (w : WorkerState) (tid : Nat) : WorkerState :=
  { w with tables := alistErase w.tables tid }

/-- `Worker::shutdown`: delete all tables and clear the map, null the server
handle, clear the running flag (and signal `running_cv_`).  No other member
of the worker is touched. -/
def Worker.shutdown (w : WorkerState) : WorkerState :=
  { w with tables := [], serverAlive := false, running := false }

/-- `Modulo::shard_for_key`: `boost::hash_value(k) % num_shards`.  The boost
hash is an external pure function, taken as a parameter. -/
def Modulo.shard_for_key {K : Type} (hashValue : K → Nat) (k : K)
    (num_shards : Nat) : Nat :=
  hashValue k % num_shards

/-! ### The reduction kernels of src/unnamed/part_001

`_R_TYPE_` is `npy_int`; values are modelled as mathematical integers
(signed overflow is undefined behaviour in C), with the two's-complement
`Int.land` / `Int.lor` / `Int.xor` for the bitwise reducers. -/

/-- `_R_NAME__scalar_replace`: `*ip1 = in2`. -/
def scalar_replace (in1 in2 : Int) : Int := in2

/-- `_R_NAME__scalar_add`: `*ip1 = in1 + in2`. -/
def scalar_add (in1 in2 : Int) : Int := in1 + in2

/-- `_R_NAME__scalar_multiply`: `*ip1 = in1 * in2`. -/
def scalar_multiply (in1 in2 : Int) : Int := in1 * in2

/-- `_R_NAME__scalar_maximum`: `*ip1 = (in1 >= in2) ? in1 : in2`. -/
def scalar_maximum (in1 in2 : Int) : Int := if in2 ≤ in1 then in1 else in2

/-- `_R_NAME__scalar_minimum`: `*ip1 = (in1 < in2) ? in1 : in2`. -/
def scalar_minimum (in1 in2 : Int) : Int := if in1 < in2 then in1 else in2

/-- `_R_NAME__scalar_and`: `*ip1 = in1 & in2`. -/
def scalar_and (in1 in2 : Int) : Int := Int.land in1 in2

/-- `_R_NAME__scalar_or`: `*ip1 = in1 | in2`. -/
def scalar_or (in1 in2 : Int) : Int := Int.lor in1 in2

/-- `_R_NAME__scalar_xor`: `*ip1 = in1 xor in2`. -/
def scalar_xor (in1 in2 : Int) : Int := Int.xor in1 in2

/-- `_R_NAME__dense_maximum`: the `BINARY_DENSE_LOOP` applying the maximum
body at every position of two arrays of the same length `n`. -/
def dense_maximum (l1 l2 : List Int) : List Int :=
  List.zipWith scalar_maximum l1 l2

/-- `_R_NAME__dense_minimum`: `*ip1 = (in1 <= in2) ? in1 : in2` at every
position. -/
def dense_minimum (l1 l2 : List Int) : List Int :=
  List.zipWith (fun in1 in2 => if in1 ≤ in2 then in1 else in2) l1 l2

/-! ### The `RemoteIterator` client of src/spartan/table-inl.h

The RPC transport is outside src/.  Modelled from the spec: the client
buffers fetched entries — each `get_iterator` reply is deserialized into the
standing `response_` object, appending the freshly fetched `results` to the
client buffer while overwriting the scalar fields — and the server-side
iterator allocated by the first request keeps its cursor between refills
(here threaded directly through the protocol state).  `trace` is the list of
`done` flags of all responses received so far, kept for the refill-count
bookkeeping of the spec's scenario S4. -/
structure RIterState (A : Type) where
  results : List A
  index : Nat
  respDone : Bool
  cursor : List A
  trace : List Bool

/-- Constructing a `RemoteIterator`: issue `get_iterator(table, shard,
id = -1, count = fetch_num)`, buffer the reply, start at `index_ = 0`. -/
def riInit {A : Type} (shard : List A) (fetch : Nat) : RIterState A :=
  let f := fillLoop fetch shard
  ⟨f.1, 0, f.2.isEmpty, f.2, [f.2.isEmpty]⟩

/-- `RemoteIterator::done`: `response_.done && index_ == response_.results.size()`. -/
def riDone {A : Type} (s : RIterState A) : Bool :=
  s.respDone && s.index == s.results.length

/-- `RemoteIterator::next`: `++index_`; when the buffer is exhausted, return
if the server said `done`, otherwise refill from the same server iterator. -/
def riNext {A : Type} (fetch : Nat) (s : RIterState A) : RIterState A :=
  let i := s.index + 1
  if s.results.length ≤ i then
    if s.respDone then { s with index := i }
    else
      let f := fillLoop fetch s.cursor
      { results := s.results ++ f.1
        index := i
        respDone := f.2.isEmpty
        cursor := f.2
        trace := s.trace ++ [f.2.isEmpty] }
  else { s with index := i }

/-- The client read loop: while not `done()`, read `key_str`/`value_str`
(that is, `response_.results[index_]`) and call `next()`.  A read past the
client buffer is undefined behaviour in the C++ source and stops the run. -/
def riDrive {A : Type} (fetch : Nat) : Nat → RIterState A → List A × RIterState A
  | 0, s => ([], s)
  | Nat.succ fuel, s =>
    if riDone s then ([], s)
    else
      match s.results[s.index]? with
      | none => ([], s)
      | some e =>
        let r := riDrive fetch fuel (riNext fetch s)
        (e :: r.1, r.2)

/-- The full run of a `RemoteIterator` over a quiescent shard: the observed
entry sequence and the final protocol state. -/
def remoteIterate {A : Type} (shard : List A) (fetch : Nat) : List A × RIterState A :=
  riDrive fetch (shard.length + 1) (riInit shard fetch)

/-! ### `LocalIterator`.  Modelled from the spec (table.h is not under src/):
a cursor over the shard's ordered mapping with `done`/`key`/`value`/`next`. -/

/-- `LocalIterator::done`: the cursor is past the last entry. -/
def liDone {A : Type} (cur : List A) : Bool := cur.isEmpty

/-- The client read loop over a `LocalIterator`: while not `done()`, read the
entry under the cursor and advance. -/
def liDrive {A : Type} : Nat → List A → List A
  | 0, _ => []
  | Nat.succ fuel, cur =>
    if liDone cur then []
    else
      match cur.head? with
      | none => []
      | some e => e :: liDrive fuel cur.tail

/-- The full run of a `LocalIterator` over a shard. -/
def localIterate {A : Type} (shard : List A) : List A :=
  liDrive (shard.length + 1) shard

/-- Protocol invariant of a running `RemoteIterator` under quiescence: the
client buffer followed by the server cursor is the whole shard, the last
response's `done` flag mirrors cursor exhaustion, the read index is inside
the buffer until the iterator is terminal, and every response so far except
possibly the last reported `done = false`. -/
def RInv {A : Type} (shard : List A) (s : RIterState A) : Prop :=
  s.results ++ s.cursor = shard ∧
  s.respDone = s.cursor.isEmpty ∧
  (s.index < s.results.length ∨ (s.cursor = [] ∧ s.index = s.results.length)) ∧
  ∃ k, s.trace = List.replicate k false ++ [s.respDone]

/-! ### Concrete states used by witnesses and counterexamples. -/

/-- A table with one shard owned by worker 0 holding the single entry
`("a", "1")`; combiner and reducer are the (default) replace accumulator. -/
def exTable : TableState :=
  { num_shards := 1
    shardOwners := [0]
    shards := [[("a", "1")]]
    combiner := fun _ v => v
    reducer := fun _ v => v }

/-- A worker (id 0) holding `exTable` as table 0 and no live iterators. -/
def exWorker : WorkerState :=
  { id := 0
    tables := [(0, exTable)]
    iterators := []
    current_iterator_id := 0
    running := true
    serverAlive := true }

/-- `exWorker` after serving `get_iterator(table 0, shard 0, id = -1,
count = 2)`: the reply drained the shard with `done = true`, and iterator 0
is registered with an exhausted cursor. -/
def exWorkerDrained : WorkerState :=
  ((Worker.get_iterator exWorker ⟨0, 0, -1, 2⟩).getD (exWorker, ⟨0, [], 0, true⟩)).1

/-- A 1000-entry shard (the spec's scenario S4). -/
def exShard1000 : List (Nat × Nat) :=
  (List.range 1000).map (fun i => (i, i))

/-- A worker owning nothing: table 0 exists but shard 0 is owned by worker 1,
while this worker has id 0. -/
def exWorkerNonOwner : WorkerState :=
  { exWorker with tables := [(0, { exTable with shardOwners := [1] })] }

/-- A kernel that adds one entry to the shard and then raises a
`PyException` carrying the message `boom`. -/
def exFailingKernel : KernelFun :=
  fun sh => (sh ++ [("partial", "9")], some "boom")


/-- The table with shard `si` replaced by `sh` (all other fields kept). -/
def TableState.withShard (t : TableState) (si : Nat) (sh : ShardData String) : TableState :=
  { t with shards := t.shards.set si sh }

/-- The worker with table `tid` replaced by `t` (all other fields kept). -/
def WorkerState.withTable (w : WorkerState) (tid : Nat) (t : TableState) : WorkerState :=
  { w with tables := alistSet w.tables tid t }

/-! ## Helper lemmas -/

theorem alistLookup_set_self {K V : Type} [DecidableEq K] (l : List (K × V)) (k : K) (v : V) :
    alistLookup (alistSet l k v) k = some v := by
  induction l with
  | nil => simp [alistSet, alistLookup]
  | cons p rest ih =>
    by_cases h : p.1 = k
    · simp [alistSet, alistLookup, h]
    · simp [alistSet, alistLookup, h, ih]

theorem alistLookup_set_ne {K V : Type} [DecidableEq K] (l : List (K × V)) (k k' : K) (v : V)
    (h : k' ≠ k) : alistLookup (alistSet l k v) k' = alistLookup l k' := by
  induction l with
  | nil => simp [alistSet, alistLookup, Ne.symm h]
  | cons p rest ih =>
    by_cases hp : p.1 = k
    · simp [alistSet, alistLookup, hp, Ne.symm h]
    · simp [alistSet, alistLookup, hp, ih]

theorem alistLookup_set_isSome {K V : Type} [DecidableEq K] (l : List (K × V)) (k k' : K)
    (v : V) (h : (alistLookup l k').isSome) : (alistLookup (alistSet l k v) k').isSome := by
  by_cases hk : k' = k
  · subst hk; rw [alistLookup_set_self]; rfl
  · rw [alistLookup_set_ne _ _ _ _ hk]; exact h

theorem alistLookup_append_single {K V : Type} [DecidableEq K] (l : List (K × V)) (k : K)
    (v : V) (h : alistLookup l k = none) : alistLookup (l ++ [(k, v)]) k = some v := by
  induction l with
  | nil => simp [alistLookup]
  | cons p rest ih =>
    by_cases hp : p.1 = k
    · simp [alistLookup, hp] at h
    · simp only [alistLookup, hp, if_false, List.cons_append] at h
      rw [List.cons_append]
      simp only [alistLookup, hp, if_false]
      exact ih h

theorem alistLookup_erase {K V : Type} [DecidableEq K] (l : List (K × V)) (k : K) :
    alistLookup (alistErase l k) k = none := by
  induction l with
  | nil => rfl
  | cons p rest ih =>
    by_cases h : p.1 = k
    · simpa [alistErase, List.filter_cons, h] using ih
    · simpa [alistErase, alistLookup, List.filter_cons, h] using ih

theorem fillLoop_eq {A : Type} : ∀ (n : Nat) (cur : List A),
    fillLoop n cur = (cur.take n, cur.drop n) := by
  intro n
  induction n with
  | zero => intro cur; rfl
  | succ n ih =>
    intro cur
    cases cur with
    | nil => rfl
    | cons e rest => simp [fillLoop, ih rest]

theorem liDrive_eq {A : Type} : ∀ (fuel : Nat) (cur : List A), cur.length ≤ fuel →
    liDrive fuel cur = cur := by
  intro fuel
  induction fuel with
  | zero =>
    intro cur h
    rw [List.length_eq_zero.mp (Nat.le_antisymm h (Nat.zero_le _))]
    rfl
  | succ fuel ih =>
    intro cur h
    cases cur with
    | nil => rfl
    | cons e rest =>
      simp only [liDrive, liDone, List.isEmpty_cons, List.head?_cons, List.tail_cons,
        Bool.false_eq_true, if_false]
      have : rest.length ≤ fuel := by
        have := h; simp only [List.length_cons] at this; omega
      rw [ih rest this]

theorem localIterate_eq {A : Type} (shard : List A) : localIterate shard = shard :=
  liDrive_eq _ _ (Nat.le_succ _)

/-! ## C9: the Modulo sharder -/

/-- C9: for every key and every positive shard count, `Modulo::shard_for_key`
is deterministic (equal inputs give equal results) and lands in
`[0, num_shards)`. -/
theorem modulo_sharder_deterministic_in_range {K : Type} (hashValue : K → Nat)
    (k : K) (num_shards : Nat) (h : 0 < num_shards) :
    Modulo.shard_for_key hashValue k num_shards < num_shards ∧
    (∀ k' : K, k' = k →
      Modulo.shard_for_key hashValue k' num_shards =
        Modulo.shard_for_key hashValue k num_shards) :=
  ⟨Nat.mod_lt _ h, fun _ hk => by rw [hk]⟩

theorem modulo_sharder_witness :
    0 < 4 ∧ Modulo.shard_for_key (fun n : Nat => n) 7 4 < 4 :=
  ⟨by decide, (modulo_sharder_deterministic_in_range (fun n : Nat => n) 7 4 (by decide)).1⟩

/-! ## C7 / C10: the Get handler -/

/-- C7: the `Get` handler answers a missing key with `missing_key = true`
and an empty `kv_data`, and a present key with `missing_key = false` and
exactly the one stored pair; both cases produce a response rather than an
error. -/
theorem worker_get_encodes_missing_key (w : WorkerState) (req : GetRequest)
    (t : TableState) (sh : ShardData String)
    (ht : alistLookup w.tables req.table = some t)
    (hs : t.shards.get? req.shard = some sh) :
    ∃ resp, Worker.get w req = some resp ∧
      (alistLookup sh req.key = none → resp.missing_key = true ∧ resp.kv_data = []) ∧
      (∀ v, alistLookup sh req.key = some v →
        resp.missing_key = false ∧ resp.kv_data = [(req.key, v)]) := by
  cases hk : alistLookup sh req.key with
  | none =>
    refine ⟨⟨w.id, req.table, -1, true, true, []⟩,
      by simp only [Worker.get, ht, hs, hk], ?_, ?_⟩
    · intro _; exact ⟨rfl, rfl⟩
    · intro v hv; cases hv
  | some v0 =>
    refine ⟨⟨w.id, req.table, -1, true, false, [(req.key, v0)]⟩,
      by simp only [Worker.get, ht, hs, hk], ?_, ?_⟩
    · intro hn; cases hn
    · intro v hv
      injection hv with hv
      subst hv
      exact ⟨rfl, rfl⟩

theorem worker_get_missing_key_witness :
    alistLookup exWorker.tables 0 = some exTable ∧
    (Worker.get exWorker ⟨0, 0, "b"⟩).map TableData.missing_key = some true ∧
    (Worker.get exWorker ⟨0, 0, "a"⟩).map TableData.kv_data = some [("a", "1")] := by
  obtain ⟨r1, hr1, hmiss1, -⟩ :=
    worker_get_encodes_missing_key exWorker ⟨0, 0, "b"⟩ exTable [("a", "1")] rfl rfl
  obtain ⟨r2, hr2, -, hfound2⟩ :=
    worker_get_encodes_missing_key exWorker ⟨0, 0, "a"⟩ exTable [("a", "1")] rfl rfl
  refine ⟨rfl, ?_, ?_⟩
  · rw [hr1]
    simp [(hmiss1 rfl).1]
  · rw [hr2]
    simp [(hfound2 "1" rfl).2]

/-- C10: every response of the `Get` handler carries `source = id_`,
`table = req.table`, `shard = -1` and `done = true`, regardless of the
requested shard and of key presence. -/
theorem worker_get_response_header (w : WorkerState) (req : GetRequest)
    (resp : TableData) (h : Worker.get w req = some resp) :
    resp.source = w.id ∧ resp.table = req.table ∧ resp.shard = -1 ∧ resp.done = true := by
  unfold Worker.get at h
  split at h
  · cases h
  · split at h
    · cases h
    · split at h
      · injection h with h
        subst h
        exact ⟨rfl, rfl, rfl, rfl⟩
      · injection h with h
        subst h
        exact ⟨rfl, rfl, rfl, rfl⟩

theorem worker_get_response_header_witness :
    Worker.get exWorker ⟨0, 3, "a"⟩ = none ∧
    (Worker.get exWorker ⟨0, 0, "zz"⟩).map TableData.shard = some (-1) ∧
    (Worker.get exWorker ⟨0, 0, "a"⟩).map TableData.done = some true := by
  obtain ⟨-, -, hsh, -⟩ :=
    worker_get_response_header exWorker ⟨0, 0, "zz"⟩ ⟨0, 0, -1, true, true, []⟩ rfl
  obtain ⟨-, -, -, hdn⟩ :=
    worker_get_response_header exWorker ⟨0, 0, "a"⟩ ⟨0, 0, -1, true, false, [("a", "1")]⟩ rfl
  exact ⟨rfl, congrArg some hsh, congrArg some hdn⟩

/-! ## C2: the Put handler -/

/-- C2: the `Put` handler applies every entry of the batch, in order, to the
addressed shard before it returns, and a single merge of `(k, v)` stores
`reducer(old, v)` when `k` was present and `v` otherwise. -/
theorem worker_put_applies_whole_batch (w : WorkerState) (req : PutReq)
    (t : TableState) (sh : ShardData String)
    (ht : alistLookup w.tables req.table = some t)
    (hs : t.shards.get? req.shard = some sh) :
    (∃ w', Worker.put w req = some w' ∧
       alistLookup w'.tables req.table =
         some (t.withShard req.shard
           (req.kv_data.foldl (fun acc p => apply_remote t.reducer acc p.1 p.2) sh))) ∧
    (∀ (V : Type) (red : V → V → V) (s : ShardData V) (k : String) (v : V),
       alistLookup (apply_remote red s k v) k =
         some (match alistLookup s k with
               | some old => red old v
               | none => v)) := by
  constructor
  · refine ⟨w.withTable req.table
        (t.withShard req.shard
          (req.kv_data.foldl (fun acc p => apply_remote t.reducer acc p.1 p.2) sh)), ?_, ?_⟩
    · simp only [Worker.put, ht, hs]; rfl
    · exact alistLookup_set_self _ _ _
  · intro V red s k v
    unfold apply_remote
    cases hl : alistLookup s k with
    | none => exact alistLookup_append_single _ _ _ hl
    | some old => exact alistLookup_set_self _ _ _

theorem worker_put_witness :
    alistLookup exWorker.tables 0 = some exTable ∧
    (Worker.put exWorker ⟨0, 0, [("a", "2"), ("b", "3")]⟩).isSome = true := by
  obtain ⟨⟨w', hput, -⟩, -⟩ :=
    worker_put_applies_whole_batch exWorker ⟨0, 0, [("a", "2"), ("b", "3")]⟩
      exTable [("a", "1")] rfl rfl
  exact ⟨rfl, by rw [hput]; rfl⟩

/-! ## C3 / C6: the RunKernel handler -/

/-- On an owned shard (and a registered, non `-1` worker id) `run_kernel`
reaches the kernel: it returns `ok` with the kernel applied to the shard, a
caught failure formatted into `error`, and `elapsed` set. -/
theorem run_kernel_eq_ok (w : WorkerState) (kern : KernelFun) (req : RunKernelReq)
    (e : Nat) (t : TableState) (sh : ShardData String)
    (hid : w.id ≠ -1)
    (ht : alistLookup w.tables req.table = some t)
    (hs : t.shards.get? req.shard = some sh)
    (ho : t.worker_for_shard req.shard = w.id) :
    Worker.run_kernel w kern req e =
      .ok (w.withTable req.table (t.withShard req.shard (kern sh).1))
         ⟨(match (kern sh).2 with
           | some ex => format_exc ex
           | none => ""), some e⟩ := by
  simp only [Worker.run_kernel, if_neg hid, ht, hs, ho]
  rw [if_neg (not_not_intro rfl)]
  rfl

/-- On a shard whose recorded owner differs from the worker id, `run_kernel`
hits the routing-violation `Log_fatal` with the worker state untouched. -/
theorem run_kernel_eq_fatal (w : WorkerState) (kern : KernelFun) (req : RunKernelReq)
    (e : Nat) (t : TableState) (sh : ShardData String)
    (hid : w.id ≠ -1)
    (ht : alistLookup w.tables req.table = some t)
    (hs : t.shards.get? req.shard = some sh)
    (ho : t.worker_for_shard req.shard ≠ w.id) :
    Worker.run_kernel w kern req e = .fatal routingViolationMsg w := by
  simp only [Worker.run_kernel, if_neg hid, ht, hs]
  rw [if_pos ho]

/-- C3: a `RunKernel` request for a shard the worker does not own dies in the
routing-violation `Log_fatal` with no table or shard state mutated, while on
an owned shard the check passes and the kernel is run. -/
theorem run_kernel_routing_check (w : WorkerState) (kern : KernelFun)
    (req : RunKernelReq) (e : Nat) (t : TableState) (sh : ShardData String)
    (hid : w.id ≠ -1)
    (ht : alistLookup w.tables req.table = some t)
    (hs : t.shards.get? req.shard = some sh) :
    (t.worker_for_shard req.shard ≠ w.id →
       Worker.run_kernel w kern req e = .fatal routingViolationMsg w) ∧
    (t.worker_for_shard req.shard = w.id →
       Worker.run_kernel w kern req e =
         .ok (w.withTable req.table (t.withShard req.shard (kern sh).1))
            ⟨(match (kern sh).2 with
              | some ex => format_exc ex
              | none => ""), some e⟩) :=
  ⟨run_kernel_eq_fatal w kern req e t sh hid ht hs,
   run_kernel_eq_ok w kern req e t sh hid ht hs⟩

theorem run_kernel_routing_check_witness :
    exWorkerNonOwner.id ≠ -1 ∧
    Worker.run_kernel exWorkerNonOwner (fun sh => (sh, none)) ⟨0, 0⟩ 5 =
      .fatal routingViolationMsg exWorkerNonOwner := by
  have h := run_kernel_routing_check exWorkerNonOwner (fun sh => (sh, none)) ⟨0, 0⟩ 5
    { exTable with shardOwners := [1] } [("a", "1")] (by decide) rfl rfl
  exact ⟨by decide, h.1 (by decide)⟩

theorem format_exc_ne_empty (s : String) : format_exc s ≠ "" := by
  intro h
  have hlen : (format_exc s).length = 0 := by rw [h]; rfl
  rw [format_exc, String.length_append] at hlen
  have h15 : ("KernelFailure: " : String).length = 15 := rfl
  omega

/-- C6: on an owned shard, a structured kernel failure is caught at the
kernel boundary and serialized into a non-empty `RunKernelResp.error`
(empty on success), `elapsed` is always set, and no worker state other than
the kernel's own shard is touched. -/
theorem run_kernel_catches_kernel_failure (w : WorkerState) (kern : KernelFun)
    (req : RunKernelReq) (e : Nat) (t : TableState) (sh : ShardData String)
    (hid : w.id ≠ -1)
    (ht : alistLookup w.tables req.table = some t)
    (hs : t.shards.get? req.shard = some sh)
    (ho : t.worker_for_shard req.shard = w.id) :
    ∃ w' resp, Worker.run_kernel w kern req e = .ok w' resp ∧
      resp.elapsed = some e ∧
      (∀ ex, (kern sh).2 = some ex → resp.error = format_exc ex ∧ resp.error ≠ "") ∧
      ((kern sh).2 = none → resp.error = "") ∧
      w'.id = w.id ∧
      w'.iterators = w.iterators ∧
      w'.current_iterator_id = w.current_iterator_id ∧
      w'.running = w.running ∧
      w'.serverAlive = w.serverAlive ∧
      (∀ tid, tid ≠ req.table → alistLookup w'.tables tid = alistLookup w.tables tid) := by
  refine ⟨_, _, run_kernel_eq_ok w kern req e t sh hid ht hs ho,
    ?_, ?_, ?_, ?_, ?_, ?_, ?_, ?_, ?_⟩
  · rfl
  · intro ex hex
    rw [hex]
    exact ⟨rfl, format_exc_ne_empty ex⟩
  · intro hex
    rw [hex]
  · rfl
  · rfl
  · rfl
  · rfl
  · rfl
  · intro tid htid
    exact alistLookup_set_ne _ _ _ _ htid

theorem run_kernel_failure_witness :
    exTable.worker_for_shard 0 = exWorker.id ∧
    Worker.run_kernel exWorker exFailingKernel ⟨0, 0⟩ 7 =
      .ok (exWorker.withTable 0 (exTable.withShard 0 [("a", "1"), ("partial", "9")]))
         ⟨format_exc "boom", some 7⟩ ∧
    format_exc "boom" ≠ "" := by
  obtain ⟨w', resp, hok, -, herr, -, -, -, -, -, -, -⟩ :=
    run_kernel_catches_kernel_failure exWorker exFailingKernel ⟨0, 0⟩ 7 exTable
      [("a", "1")] (by decide) rfl rfl rfl
  have h2 := run_kernel_eq_ok exWorker exFailingKernel ⟨0, 0⟩ 7 exTable [("a", "1")]
    (by decide) rfl rfl rfl
  refine ⟨rfl, ?_, ?_⟩
  · rw [h2]
    rfl
  · obtain ⟨he, hne⟩ := herr "boom" rfl
    rw [← he]
    exact hne

/-! ## C8: iterator registry lifecycle -/

/-- C8 (amended): server-side iterators are never removed from the
per-worker registry.  `get_iterator` keeps every registered id alive (there
is no terminal-flag garbage collection), `destroy_table` erases only the
tables-map entry, and `shutdown` clears the tables, the server handle and
the running flag — the `iterators` map survives all three. -/
theorem iterator_registry_never_shrinks (w : WorkerState) (tid : Nat) :
    (Worker.destroy_table w tid).iterators = w.iterators ∧
    (Worker.shutdown w).iterators = w.iterators ∧
    alistLookup (Worker.destroy_table w tid).tables tid = none ∧
    (Worker.shutdown w).tables = [] ∧
    (Worker.shutdown w).running = false ∧
    (Worker.shutdown w).serverAlive = false ∧
    (∀ req out, Worker.get_iterator w req = some out →
       ∀ iid, (alistLookup w.iterators iid).isSome →
         (alistLookup out.1.iterators iid).isSome) := by
  refine ⟨rfl, rfl, alistLookup_erase _ _, rfl, rfl, rfl, ?_⟩
  intro req out hout iid hsome
  unfold Worker.get_iterator at hout
  cases hres : resolveIter w req with
  | none => rw [hres] at hout; cases hout
  | some r =>
    rw [hres] at hout
    obtain ⟨i, cur, isNew⟩ := r
    injection hout with hout
    subst hout
    exact alistLookup_set_isSome _ _ _ _ hsome

/-- C8 (counterexample to the claim as stated): after a client drained
iterator 0 of table 0 to a `done = true` response, neither `destroy_table 0`
nor `shutdown` removes the iterator from the registry — the entry for the
destroyed table's shard remains registered. -/
theorem iterator_registry_leak_counterexample :
    ((Worker.get_iterator exWorker ⟨0, 0, -1, 2⟩).map (fun p => p.2.done)) = some true ∧
    (Worker.destroy_table exWorkerDrained 0).iterators = [(0, [])] ∧
    ((alistLookup (Worker.destroy_table exWorkerDrained 0).tables 0).isNone = true) ∧
    (Worker.shutdown exWorkerDrained).iterators = [(0, [])] := by
  refine ⟨by decide, by decide, by decide, by decide⟩

theorem iterator_registry_witness :
    (Worker.destroy_table exWorkerDrained 0).iterators = exWorkerDrained.iterators ∧
    (Worker.shutdown exWorkerDrained).tables = [] := by
  have h := iterator_registry_never_shrinks exWorkerDrained 0
  exact ⟨h.1, h.2.2.2.1⟩

/-! ## C5: the GetIterator fill -/

/-- C5: a `get_iterator` request with count `c` against a server-side cursor
with `r` remaining entries answers with exactly `min c r` entries, in cursor
order, `done` true exactly when the cursor is exhausted after the fill, the
registry advanced past the returned entries; `count = 0` returns an empty
batch with the current `done`, and a fresh iterator over an empty shard
answers `results = []`, `done = true`. -/
theorem get_iterator_fill_spec (w : WorkerState) (req : IteratorReq)
    (iid : Nat) (cur : ShardData String) (isNew : Bool)
    (hres : resolveIter w req = some (iid, cur, isNew)) :
    ∃ w' resp, Worker.get_iterator w req = some (w', resp) ∧
      resp.id = iid ∧
      resp.results = cur.take req.count ∧
      resp.results.length = min req.count cur.length ∧
      (resp.done = true ↔ cur.drop req.count = []) ∧
      alistLookup w'.iterators iid = some (cur.drop req.count) ∧
      (req.count = 0 → resp.results = [] ∧ resp.done = cur.isEmpty) ∧
      (cur = [] → resp.results = [] ∧ resp.done = true) := by
  refine ⟨{ w with
              iterators := alistSet w.iterators iid (cur.drop req.count)
              current_iterator_id :=
                if isNew then w.current_iterator_id + 1 else w.current_iterator_id },
    ⟨iid, cur.take req.count, (cur.take req.count).length - 1, (cur.drop req.count).isEmpty⟩,
    ?_, rfl, rfl, ?_, ?_, ?_, ?_, ?_⟩
  · simp only [Worker.get_iterator, hres, fillLoop_eq]
  · exact List.length_take _ _
  · exact List.isEmpty_iff
  · exact alistLookup_set_self _ _ _
  · intro h0
    rw [h0]
    exact ⟨rfl, rfl⟩
  · intro hc
    subst hc
    simp

theorem get_iterator_fill_witness :
    resolveIter exWorker ⟨0, 0, -1, 2⟩ = some (0, [("a", "1")], true) ∧
    ((Worker.get_iterator exWorker ⟨0, 0, -1, 2⟩).map
      (fun p => (p.2.results, p.2.done))) = some ([("a", "1")], true) := by
  obtain ⟨w', resp, hout, -, hresults, -, hdone, -, -, -⟩ :=
    get_iterator_fill_spec exWorker ⟨0, 0, -1, 2⟩ 0 [("a", "1")] true (by decide)
  refine ⟨by decide, ?_⟩
  rw [hout]
  have hd : resp.done = true := hdone.mpr rfl
  rw [Option.map]
  rw [hresults, hd]
  rfl

/-! ## C4: the built-in accumulators -/

theorem int_testBit_ext {m n : Int} (h : ∀ k, m.testBit k = n.testBit k) : m = n := by
  cases m with
  | ofNat a =>
    cases n with
    | ofNat b =>
      have : a = b := by
        refine Nat.eq_of_testBit_eq (fun i => ?_)
        simpa [Int.testBit] using h i
      rw [this]
    | negSucc b =>
      exfalso
      have ha : a < 2 ^ (a + b) := Nat.lt_of_le_of_lt (Nat.le_add_right a b) (Nat.lt_two_pow _)
      have hb : b < 2 ^ (a + b) := Nat.lt_of_le_of_lt (Nat.le_add_left b a) (Nat.lt_two_pow _)
      have := h (a + b)
      simp [Int.testBit, Nat.testBit_lt_two_pow ha, Nat.testBit_lt_two_pow hb] at this
  | negSucc a =>
    cases n with
    | ofNat b =>
      exfalso
      have ha : a < 2 ^ (a + b) := Nat.lt_of_le_of_lt (Nat.le_add_right a b) (Nat.lt_two_pow _)
      have hb : b < 2 ^ (a + b) := Nat.lt_of_le_of_lt (Nat.le_add_left b a) (Nat.lt_two_pow _)
      have := h (a + b)
      simp [Int.testBit, Nat.testBit_lt_two_pow ha, Nat.testBit_lt_two_pow hb] at this
    | negSucc b =>
      have : a = b := by
        refine Nat.eq_of_testBit_eq (fun i => ?_)
        have := h i
        simpa [Int.testBit] using this
      rw [this]

theorem scalar_maximum_eq_max (a b : Int) : scalar_maximum a b = max a b := by
  unfold scalar_maximum
  by_cases h : b ≤ a
  · rw [if_pos h, max_eq_left h]
  · rw [if_neg h, max_eq_right (le_of_lt (lt_of_not_le h))]

theorem scalar_minimum_eq_min (a b : Int) : scalar_minimum a b = min a b := by
  unfold scalar_minimum
  by_cases h : a < b
  · rw [if_pos h, min_eq_left (le_of_lt h)]
  · rw [if_neg h, min_eq_right (le_of_not_lt h)]

theorem zipWith_assoc_of_assoc {A : Type} (f : A → A → A)
    (hf : ∀ x y z, f (f x y) z = f x (f y z)) :
    ∀ l1 l2 l3 : List A,
      List.zipWith f (List.zipWith f l1 l2) l3 = List.zipWith f l1 (List.zipWith f l2 l3) := by
  intro l1
  induction l1 with
  | nil => intro l2 l3; rfl
  | cons a as ih =>
    intro l2 l3
    cases l2 with
    | nil => rfl
    | cons b bs =>
      cases l3 with
      | nil => rfl
      | cons c cs =>
        simp only [List.zipWith_cons_cons]
        exact congrArg₂ List.cons (hf a b c) (ih bs cs)

/-- C4 (counterexample to the claim as stated): the built-in REPLACE
accumulator — the first entry of the `REDUCER` enumeration and the default
combiner/reducer — is not commutative. -/
theorem replace_accumulator_not_commutative :
    scalar_replace 0 1 = 1 ∧ scalar_replace 1 0 = 0 ∧
    scalar_replace 0 1 ≠ scalar_replace 1 0 := by decide

/-- C4 (amended): the MAX reducer (scalar and dense) is associative and
commutative, as is every other built-in accumulator except REPLACE, which is
associative but not commutative; consequently, with reducer = MAX, merging 5
and 7 into the same fresh key yields 7 in either order (scenario S3). -/
theorem builtin_accumulators_assoc_comm :
    (∀ a b c : Int, scalar_maximum (scalar_maximum a b) c = scalar_maximum a (scalar_maximum b c)) ∧
    (∀ a b : Int, scalar_maximum a b = scalar_maximum b a) ∧
    (∀ a b c : Int, scalar_minimum (scalar_minimum a b) c = scalar_minimum a (scalar_minimum b c)) ∧
    (∀ a b : Int, scalar_minimum a b = scalar_minimum b a) ∧
    (∀ a b c : Int, scalar_add (scalar_add a b) c = scalar_add a (scalar_add b c)) ∧
    (∀ a b : Int, scalar_add a b = scalar_add b a) ∧
    (∀ a b c : Int, scalar_multiply (scalar_multiply a b) c = scalar_multiply a (scalar_multiply b c)) ∧
    (∀ a b : Int, scalar_multiply a b = scalar_multiply b a) ∧
    (∀ a b c : Int, scalar_and (scalar_and a b) c = scalar_and a (scalar_and b c)) ∧
    (∀ a b : Int, scalar_and a b = scalar_and b a) ∧
    (∀ a b c : Int, scalar_or (scalar_or a b) c = scalar_or a (scalar_or b c)) ∧
    (∀ a b : Int, scalar_or a b = scalar_or b a) ∧
    (∀ a b c : Int, scalar_xor (scalar_xor a b) c = scalar_xor a (scalar_xor b c)) ∧
    (∀ a b : Int, scalar_xor a b = scalar_xor b a) ∧
    (∀ a b c : Int, scalar_replace (scalar_replace a b) c = scalar_replace a (scalar_replace b c)) ∧
    (∀ l1 l2 l3 : List Int,
      dense_maximum (dense_maximum l1 l2) l3 = dense_maximum l1 (dense_maximum l2 l3)) ∧
    (∀ l1 l2 : List Int, dense_maximum l1 l2 = dense_maximum l2 l1) ∧
    alistLookup (apply_remote scalar_maximum
      (apply_remote scalar_maximum ([] : ShardData Int) "x" 5) "x" 7) "x" = some 7 ∧
    alistLookup (apply_remote scalar_maximum
      (apply_remote scalar_maximum ([] : ShardData Int) "x" 7) "x" 5) "x" = some 7 := by
  have hmax_assoc : ∀ a b c : Int,
      scalar_maximum (scalar_maximum a b) c = scalar_maximum a (scalar_maximum b c) := by
    intro a b c
    simp only [scalar_maximum_eq_max]
    exact max_assoc a b c
  have hmax_comm : ∀ a b : Int, scalar_maximum a b = scalar_maximum b a := by
    intro a b
    simp only [scalar_maximum_eq_max]
    exact max_comm a b
  refine ⟨hmax_assoc, hmax_comm, ?_, ?_, ?_, ?_, ?_, ?_, ?_, ?_, ?_, ?_, ?_, ?_, ?_, ?_, ?_,
    by decide, by decide⟩
  · intro a b c
    simp only [scalar_minimum_eq_min]
    exact min_assoc a b c
  · intro a b
    simp only [scalar_minimum_eq_min]
    exact min_comm a b
  · intro a b c
    exact add_assoc a b c
  · intro a b
    exact add_comm a b
  · intro a b c
    exact mul_assoc a b c
  · intro a b
    exact mul_comm a b
  · intro a b c
    refine int_testBit_ext (fun k => ?_)
    simp [scalar_and, Int.testBit_land, Bool.and_assoc]
  · intro a b
    refine int_testBit_ext (fun k => ?_)
    simp [scalar_and, Int.testBit_land, Bool.and_comm]
  · intro a b c
    refine int_testBit_ext (fun k => ?_)
    simp [scalar_or, Int.testBit_lor, Bool.or_assoc]
  · intro a b
    refine int_testBit_ext (fun k => ?_)
    simp [scalar_or, Int.testBit_lor, Bool.or_comm]
  · intro a b c
    refine int_testBit_ext (fun k => ?_)
    simp [scalar_xor, Int.testBit_lxor, Bool.xor_assoc]
  · intro a b
    refine int_testBit_ext (fun k => ?_)
    simp [scalar_xor, Int.testBit_lxor, Bool.xor_comm]
  · intro a b c
    rfl
  · exact zipWith_assoc_of_assoc scalar_maximum hmax_assoc
  · intro l1 l2
    exact List.zipWith_comm_of_comm scalar_maximum hmax_comm l1 l2

/-! ## C1: RemoteIterator refines LocalIterator -/

theorem riInit_eq {A : Type} (shard : List A) (fetch : Nat) :
    riInit shard fetch =
      { results := shard.take fetch
        index := 0
        respDone := (shard.drop fetch).isEmpty
        cursor := shard.drop fetch
        trace := [(shard.drop fetch).isEmpty] } := by
  unfold riInit
  rw [fillLoop_eq]

theorem riInit_inv {A : Type} (shard : List A) (fetch : Nat) (hf : 0 < fetch) :
    RInv shard (riInit shard fetch) := by
  unfold RInv
  rw [riInit_eq]
  refine ⟨List.take_append_drop _ _, rfl, ?_, 0, rfl⟩
  cases shard with
  | nil =>
    right
    exact ⟨by simp, by simp⟩
  | cons a rest =>
    left
    show 0 < (List.take fetch (a :: rest)).length
    rw [List.length_take]
    exact lt_min_iff.mpr ⟨hf, Nat.succ_pos _⟩

theorem rinv_index_lt {A : Type} {shard : List A} {s : RIterState A}
    (hinv : RInv shard s) (hd : riDone s = false) : s.index < s.results.length := by
  obtain ⟨-, h2, h3, -⟩ := hinv
  rcases h3 with h | ⟨hc, hi⟩
  · exact h
  · exfalso
    simp [riDone, h2, hc, hi] at hd

theorem riNext_spec {A : Type} (fetch : Nat) (hf : 0 < fetch) {shard : List A}
    {s : RIterState A} (hinv : RInv shard s) (hlt : s.index < s.results.length) :
    RInv shard (riNext fetch s) ∧
    (riNext fetch s).results.length - (riNext fetch s).index + (riNext fetch s).cursor.length
      = s.results.length - s.index + s.cursor.length - 1 ∧
    (riNext fetch s).results.drop (riNext fetch s).index ++ (riNext fetch s).cursor
      = s.results.drop (s.index + 1) ++ s.cursor := by
  obtain ⟨h1, h2, h3, k, htr⟩ := hinv
  by_cases hbig : s.results.length ≤ s.index + 1
  · have hlen : s.results.length = s.index + 1 := by omega
    cases hdone : s.respDone with
    | true =>
      have hcur : s.cursor = [] := List.isEmpty_iff.mp (hdone ▸ h2).symm
      have hnext : riNext fetch s = { s with index := s.index + 1 } := by
        simp only [riNext, if_pos hbig, hdone, if_true]
      rw [hnext]
      dsimp only
      have hclen : s.cursor.length = 0 := by rw [hcur]; rfl
      exact ⟨⟨h1, h2, Or.inr ⟨hcur, hlen.symm⟩, k, htr⟩, by omega, rfl⟩
    | false =>
      have hcur : s.cursor ≠ [] := by
        intro hc
        rw [hc] at h2
        simp at h2
        rw [h2] at hdone
        cases hdone
      have hnext : riNext fetch s =
          { results := s.results ++ s.cursor.take fetch
            index := s.index + 1
            respDone := (s.cursor.drop fetch).isEmpty
            cursor := s.cursor.drop fetch
            trace := s.trace ++ [(s.cursor.drop fetch).isEmpty] } := by
        simp only [riNext, if_pos hbig, hdone, Bool.false_eq_true, if_false, fillLoop_eq]
      rw [hnext]
      dsimp only
      have hcpos : 0 < s.cursor.length := List.length_pos.mpr hcur
      have htake : (s.cursor.take fetch).length = min fetch s.cursor.length :=
        List.length_take _ _
      have hdrop : (s.cursor.drop fetch).length = s.cursor.length - fetch :=
        List.length_drop _ _
      have happlen : (s.results ++ s.cursor.take fetch).length
          = s.results.length + (s.cursor.take fetch).length := List.length_append _ _
      refine ⟨⟨?_, rfl, ?_, ?_⟩, ?_, ?_⟩
      · rw [List.append_assoc, List.take_append_drop]
        exact h1
      · left
        show s.index + 1 < (s.results ++ s.cursor.take fetch).length
        omega
      · refine ⟨k + 1, ?_⟩
        rw [htr, hdone, List.replicate_succ']
      · show (s.results ++ s.cursor.take fetch).length - (s.index + 1)
            + (s.cursor.drop fetch).length
          = s.results.length - s.index + s.cursor.length - 1
        omega
      · have hdl : (s.results ++ s.cursor.take fetch).drop (s.index + 1)
            = s.cursor.take fetch := by
          rw [← hlen]
          exact List.drop_left _ _
        rw [hdl, List.take_append_drop]
        rw [List.drop_eq_nil_of_le hbig, List.nil_append]
  · have hnext : riNext fetch s = { s with index := s.index + 1 } := by
      simp only [riNext, if_neg hbig]
    rw [hnext]
    dsimp only
    exact ⟨⟨h1, h2, Or.inl (lt_of_not_le hbig), k, htr⟩, by omega, rfl⟩

theorem riDrive_spec {A : Type} (fetch : Nat) (hf : 0 < fetch) :
    ∀ (fuel : Nat) (s : RIterState A) (shard : List A), RInv shard s →
      s.results.length - s.index + s.cursor.length < fuel →
      (riDrive fetch fuel s).1 = s.results.drop s.index ++ s.cursor ∧
      RInv shard (riDrive fetch fuel s).2 ∧
      riDone (riDrive fetch fuel s).2 = true := by
  intro fuel
  induction fuel with
  | zero =>
    intro s shard hinv hm
    exact absurd hm (Nat.not_lt_zero _)
  | succ fuel ih =>
    intro s shard hinv hm
    cases hd : riDone s with
    | true =>
      have hstep : riDrive fetch (fuel + 1) s = ([], s) := by
        simp only [riDrive, hd, if_true]
      have hd2 := hd
      unfold riDone at hd2
      rw [Bool.and_eq_true] at hd2
      have hidx : s.index = s.results.length := eq_of_beq hd2.2
      have hcur : s.cursor = [] := List.isEmpty_iff.mp (hd2.1 ▸ hinv.2.1).symm
      rw [hstep]
      refine ⟨?_, hinv, hd⟩
      rw [hcur, List.drop_eq_nil_of_le (le_of_eq hidx.symm), List.nil_append]
    | false =>
      have hlt := rinv_index_lt hinv hd
      have hstep : riDrive fetch (fuel + 1) s =
          (s.results[s.index] :: (riDrive fetch fuel (riNext fetch s)).1,
           (riDrive fetch fuel (riNext fetch s)).2) := by
        simp only [riDrive, hd, Bool.false_eq_true, if_false, List.getElem?_eq_getElem hlt]
      obtain ⟨hninv, hmeas, hout⟩ := riNext_spec fetch hf hinv hlt
      have hm' : (riNext fetch s).results.length - (riNext fetch s).index
          + (riNext fetch s).cursor.length < fuel := by
        rw [hmeas]
        omega
      obtain ⟨ho1, ho2, ho3⟩ := ih (riNext fetch s) shard hninv hm'
      rw [hstep]
      refine ⟨?_, ho2, ho3⟩
      show s.results[s.index] :: (riDrive fetch fuel (riNext fetch s)).1
        = s.results.drop s.index ++ s.cursor
      rw [ho1, hout, List.drop_eq_getElem_cons hlt, List.cons_append]

/-- C1: under quiescence and a positive fetch count, the sequence a
`RemoteIterator` observes (read `key`/`value`, advance with `next`, stop at
`done`) is exactly the sequence a `LocalIterator` observes over the same
shard — the whole shard, in local order — and among all `get_iterator`
responses exactly one, the final one, carries `done = true`. -/
theorem remote_iterator_matches_local {A : Type} (shard : List A) (fetch : Nat)
    (hf : 0 < fetch) :
    (remoteIterate shard fetch).1 = localIterate shard ∧
    (remoteIterate shard fetch).1.length = shard.length ∧
    (remoteIterate shard fetch).2.trace.count true = 1 ∧
    (remoteIterate shard fetch).2.trace.getLast? = some true := by
  have hm : (riInit shard fetch).results.length - (riInit shard fetch).index
      + (riInit shard fetch).cursor.length < shard.length + 1 := by
    rw [riInit_eq]
    show (shard.take fetch).length - 0 + (shard.drop fetch).length < shard.length + 1
    rw [List.length_take, List.length_drop]
    omega
  obtain ⟨hout, hinv', hdone'⟩ :=
    riDrive_spec fetch hf (shard.length + 1) (riInit shard fetch) shard
      (riInit_inv shard fetch hf) hm
  have hmain : (remoteIterate shard fetch).1 = shard := by
    show (riDrive fetch (shard.length + 1) (riInit shard fetch)).1 = shard
    rw [hout, riInit_eq]
    show (shard.take fetch).drop 0 ++ shard.drop fetch = shard
    rw [List.drop_zero, List.take_append_drop]
  have hrd : (riDrive fetch (shard.length + 1) (riInit shard fetch)).2.respDone = true := by
    have hd2 := hdone'
    unfold riDone at hd2
    rw [Bool.and_eq_true] at hd2
    exact hd2.1
  obtain ⟨-, -, -, k, htr⟩ := hinv'
  rw [hrd] at htr
  refine ⟨?_, ?_, ?_, ?_⟩
  · rw [hmain, localIterate_eq]
  · rw [hmain]
  · show (riDrive fetch (shard.length + 1) (riInit shard fetch)).2.trace.count true = 1
    rw [htr, List.count_append, List.count_replicate, List.count_singleton]
    simp
  · show (riDrive fetch (shard.length + 1) (riInit shard fetch)).2.trace.getLast? = some true
    rw [htr]
    exact List.getLast?_concat _

theorem remote_iterator_matches_local_witness :
    0 < 128 ∧
    (remoteIterate exShard1000 128).1 = localIterate exShard1000 ∧
    (remoteIterate exShard1000 128).1.length = 1000 ∧
    (remoteIterate exShard1000 128).2.trace.count true = 1 := by
  have h := remote_iterator_matches_local exShard1000 128 (by decide)
  refine ⟨by decide, h.1, ?_, h.2.2.1⟩
  rw [h.2.1]
  simp [exShard1000]
